import Mathlib

/-!
Verification development for the Elenpay/Paidly invoice gateway.

The repository is a Node/Express integration layer around a Bitcoin payment
provider.  This file gives a shallow embedding of the claim-relevant parts:

* the HMAC-SHA256 webhook signature check (src/server.js, which calls
  crypto.createHmac with the malformed algorithm name "sha266", and the
  corrected variant appended to src/api/check-status.js which uses "sha256");
* the webhook event processing and the in-memory payment store
  (src/server.js: paymentStore, /paidly-webhook and /check-status handlers);
* the createInvoice orchestration with its bounded poll loop and result
  shaping (src/api/create-invoice.js, identical loop in src/unnamed/part_001);
* the metadata sanitizer (src/api/create-invoice.js sanitizeMetadata).

Machine integers are modelled as Nat with explicit reduction mod 2^32 where
the JS/Node crypto code works with 32-bit words; bytes are Nat values < 256.
Node primitives used by the code (crypto.createHmac/sha256, Buffer.from hex
decoding, crypto.timingSafeEqual, JSON.parse) are embedded as executable Lean
functions that follow their documented semantics.
-/

set_option maxRecDepth 100000

/-! ## 32-bit word arithmetic (Nat, reduced mod 2^32) -/

/-- Reduce a natural number to a 32-bit word. -/
def w32 (n : Nat) : Nat := n % 4294967296

/-- Right-rotate a 32-bit word by k bits (0 < k < 32). -/
def rotr32 (x k : Nat) : Nat := w32 ((x >>> k) ||| (x <<< (32 - k)))

/-- SHA-256 Ch function. -/
def shaCh (x y z : Nat) : Nat := (x &&& y) ^^^ ((x ^^^ 4294967295) &&& z)

/-- SHA-256 Maj function. -/
def shaMaj (x y z : Nat) : Nat := (x &&& y) ^^^ (x &&& z) ^^^ (y &&& z)

/-- SHA-256 big Sigma0. -/
def shaS0 (x : Nat) : Nat := rotr32 x 2 ^^^ rotr32 x 13 ^^^ rotr32 x 22

/-- SHA-256 big Sigma1. -/
def shaS1 (x : Nat) : Nat := rotr32 x 6 ^^^ rotr32 x 11 ^^^ rotr32 x 25

/-- SHA-256 small sigma0. -/
def shas0 (x : Nat) : Nat := rotr32 x 7 ^^^ rotr32 x 18 ^^^ (x >>> 3)

/-- SHA-256 small sigma1. -/
def shas1 (x : Nat) : Nat := rotr32 x 17 ^^^ rotr32 x 19 ^^^ (x >>> 10)

/-- The 64 SHA-256 round constants. -/
def shaK : List Nat :=
  [1116352408, 1899447441, 3049323471, 3921009573, 961987163, 1508970993,
   2453635748, 2870763221, 3624381080, 310598401, 607225278, 1426881987,
   1925078388, 2162078206, 2614888103, 3248222580, 3835390401, 4022224774,
   264347078, 604807628, 770255983, 1249150122, 1555081692, 1996064986,
   2554220882, 2821834349, 2952996808, 3210313671, 3336571891, 3584528711,
   113926993, 338241895, 666307205, 773529912, 1294757372, 1396182291,
   1695183700, 1986661051, 2177026350, 2456956037, 2730485921, 2820302411,
   3259730800, 3345764771, 3516065817, 3600352804, 4094571909, 275423344,
   430227734, 506948616, 659060556, 883997877, 958139571, 1322822218,
   1537002063, 1747873779, 1955562222, 2024104815, 2227730452, 2361852424,
   2428436474, 2756734187, 3204031479, 3329325298]

/-- The eight working variables of the SHA-256 compression function. -/
structure Hash8 where
  a : Nat
  b : Nat
  c : Nat
  d : Nat
  e : Nat
  f : Nat
  g : Nat
  h : Nat
deriving DecidableEq, Repr

/-- SHA-256 initial hash value. -/
def shaH0 : Hash8 :=
  ⟨1779033703, 3144134277, 1013904242, 2773480762, 1359893119, 2600822924, 528734635, 1541459225⟩

/-- Big-endian byte encoding of `n` on `count` bytes. -/
def beBytes (count n : Nat) : List Nat :=
  (List.range count).map (fun i => (n >>> (8 * (count - 1 - i))) % 256)

/-- SHA-256 message padding: append 0x80, zero bytes, and the 64-bit
big-endian bit length so the total length is a multiple of 64. -/
def sha256pad (msg : List Nat) : List Nat :=
  let L := msg.length
  let zeros := (64 - ((L + 9) % 64)) % 64
  msg ++ 0x80 :: List.replicate zeros 0 ++ beBytes 8 (8 * L)

/-- Split a byte list into 64-byte blocks (fuel-driven so it reduces in the
kernel; `fuel` must be at least the list length). -/
def toBlocks : Nat → List Nat → List (List Nat)
  | 0, _ => []
  | _ + 1, [] => []
  | fuel + 1, l => l.take 64 :: toBlocks fuel (l.drop 64)

/-- The 16 big-endian 32-bit words of a 64-byte block. -/
def blockWords (block : List Nat) : List Nat :=
  (List.range 16).map (fun i =>
    block.getD (4 * i) 0 * 16777216 + block.getD (4 * i + 1) 0 * 65536 +
    block.getD (4 * i + 2) 0 * 256 + block.getD (4 * i + 3) 0)

/-- Extend the 16 block words to the 64-entry SHA-256 message schedule. -/
def msgSchedule (ws : List Nat) : List Nat :=
  (List.range 48).foldl
    (fun acc _ =>
      let i := acc.length
      acc ++ [w32 (shas1 (acc.getD (i - 2) 0) + acc.getD (i - 7) 0 +
                   shas0 (acc.getD (i - 15) 0) + acc.getD (i - 16) 0)])
    ws

/-- One SHA-256 round: consume a (round constant, schedule word) pair. -/
def shaRound (s : Hash8) (kw : Nat × Nat) : Hash8 :=
  let t1 := w32 (s.h + shaS1 s.e + shaCh s.e s.f s.g + kw.1 + kw.2)
  let t2 := w32 (shaS0 s.a + shaMaj s.a s.b s.c)
  ⟨w32 (t1 + t2), s.a, s.b, s.c, w32 (s.d + t1), s.e, s.f, s.g⟩

/-- Process one 64-byte block of the SHA-256 computation. -/
def processBlock (hv : Hash8) (block : List Nat) : Hash8 :=
  let s := (shaK.zip (msgSchedule (blockWords block))).foldl shaRound hv
  ⟨w32 (hv.a + s.a), w32 (hv.b + s.b), w32 (hv.c + s.c), w32 (hv.d + s.d),
   w32 (hv.e + s.e), w32 (hv.f + s.f), w32 (hv.g + s.g), w32 (hv.h + s.h)⟩

/-- SHA-256 of a byte list, as a list of 32 bytes. -/
def sha256 (msg : List Nat) : List Nat :=
  let padded := sha256pad msg
  let hv := (toBlocks padded.length padded).foldl processBlock shaH0
  beBytes 4 hv.a ++ beBytes 4 hv.b ++ beBytes 4 hv.c ++ beBytes 4 hv.d ++
  beBytes 4 hv.e ++ beBytes 4 hv.f ++ beBytes 4 hv.g ++ beBytes 4 hv.h

/-- HMAC-SHA256 (RFC 2104, block size 64) of `msg` under `key`, as 32 bytes.
This models Node's crypto.createHmac with algorithm name sha256. -/
def hmacSha256 (key msg : List Nat) : List Nat :=
  let k1 := if 64 < key.length then sha256 key else key
  let k0 := k1 ++ List.replicate (64 - k1.length) 0
  sha256 ((k0.map (fun b => b ^^^ 0x5c)) ++ sha256 ((k0.map (fun b => b ^^^ 0x36)) ++ msg))

/-! ## Hex encoding and Node Buffer.from(-, hex) decoding -/

/-- Lowercase hex digit for a nibble. -/
def nibbleChar (n : Nat) : Char := if n < 10 then Char.ofNat (48 + n) else Char.ofNat (87 + n)

/-- Lowercase hex encoding of a byte list, as produced by hmac.digest of Node. -/
def hexEncodeChars (bs : List Nat) : List Char :=
  bs.foldr (fun b acc => nibbleChar (b / 16 % 16) :: nibbleChar (b % 16) :: acc) []

/-- Lowercase hex encoding of a byte list, as a string. -/
def hexEncode (bs : List Nat) : String := String.mk (hexEncodeChars bs)

/-- Value of a hex digit (accepting 0-9, a-f, A-F like Node). -/
def hexVal (c : Char) : Option Nat :=
  let n := c.toNat
  if 48 ≤ n ∧ n ≤ 57 then some (n - 48)
  else if 97 ≤ n ∧ n ≤ 102 then some (n - 87)
  else if 65 ≤ n ∧ n ≤ 70 then some (n - 55)
  else none

/-- Node Buffer.from(s, hex) semantics: decode complete leading pairs of hex
digits and stop (without error) at the first invalid pair or odd tail. -/
def hexDecodeNode : List Char → List Nat
  | c1 :: c2 :: rest =>
    match hexVal c1, hexVal c2 with
    | some hi, some lo => (16 * hi + lo) :: hexDecodeNode rest
    | _, _ => []
  | _ => []

/-! ## UTF-8 encoding (raw request body bytes of a JSON text body) -/

/-- UTF-8 encoding of a single character. -/
def utf8Char (c : Char) : List Nat :=
  let n := c.toNat
  if n < 128 then [n]
  else if n < 2048 then [192 ||| (n >>> 6), 128 ||| (n &&& 63)]
  else if n < 65536 then
    [224 ||| (n >>> 12), 128 ||| ((n >>> 6) &&& 63), 128 ||| (n &&& 63)]
  else
    [240 ||| (n >>> 18), 128 ||| ((n >>> 12) &&& 63), 128 ||| ((n >>> 6) &&& 63),
     128 ||| (n &&& 63)]

/-- UTF-8 encoding of a string: the raw bytes Express hands to the handler for
a text body (the model ranges over bodies that are valid UTF-8 text). -/
def utf8Encode (s : String) : List Nat := s.data.foldr (fun c acc => utf8Char c ++ acc) []

example : hexEncode (sha256 []) =
    "e3b0c44298fc1c149afbf4c8996fb92427ae41e4649b934ca495991b7852b855" := by decide

example : hexEncode (sha256 (utf8Encode "abc")) =
    "ba7816bf8f01cfea414140de5dae2223b00361a396177a9cb410ff61f20015ad" := by decide

example : hexEncode (hmacSha256 (utf8Encode "Jefe") (utf8Encode "what do ya want for nothing?")) =
    "5bdcc146bf60754e6a042426089575c75a003f089d2739839dec58b964ec3843" := by decide

/-! ## A JSON value model and a JSON.parse embedding

The webhook handlers call JSON.parse on the raw body and then navigate the
resulting value with property accesses.  JValue models the values JSON.parse
can return, plus jundefined for the undefined value produced by accessing a
missing property.  Numbers are kept as their source lexeme (no handler ever
does arithmetic on them, so no floating-point semantics is needed). -/

inductive JValue where
  | jnull
  | jundefined
  | jbool (b : Bool)
  | jnum (lexeme : String)
  | jstr (s : String)
  | jarr (elems : List JValue)
  | jobj (fields : List (String × JValue))

instance : Inhabited JValue := ⟨JValue.jnull⟩

/-- JSON whitespace accepted by JSON.parse: space, tab, newline, carriage return. -/
def jsonSkipWs (cs : List Char) : List Char :=
  cs.dropWhile (fun c => c.toNat == 32 || c.toNat == 9 || c.toNat == 10 || c.toNat == 13)

/-- Decimal digit test on characters. -/
def charIsDigit (c : Char) : Bool := 48 ≤ c.toNat && c.toNat ≤ 57

/-- Parse the remainder of a JSON string literal (the opening quote already
consumed), returning its characters and the rest of the input. -/
def parseStrRest : List Char → Option (List Char × List Char)
  | [] => none
  | c :: cs =>
    if c.toNat == 34 then some ([], cs)
    else if c.toNat == 92 then
      match cs with
      | [] => none
      | e :: cs2 =>
        let en := e.toNat
        if en == 34 || en == 92 || en == 47 then
          (parseStrRest cs2).map (fun p => (e :: p.1, p.2))
        else if en == 98 then (parseStrRest cs2).map (fun p => (Char.ofNat 8 :: p.1, p.2))
        else if en == 102 then (parseStrRest cs2).map (fun p => (Char.ofNat 12 :: p.1, p.2))
        else if en == 110 then (parseStrRest cs2).map (fun p => (Char.ofNat 10 :: p.1, p.2))
        else if en == 114 then (parseStrRest cs2).map (fun p => (Char.ofNat 13 :: p.1, p.2))
        else if en == 116 then (parseStrRest cs2).map (fun p => (Char.ofNat 9 :: p.1, p.2))
        else if en == 117 then
          match cs2 with
          | h1 :: h2 :: h3 :: h4 :: cs3 =>
            match hexVal h1, hexVal h2, hexVal h3, hexVal h4 with
            | some x1, some x2, some x3, some x4 =>
              (parseStrRest cs3).map
                (fun p => (Char.ofNat (4096 * x1 + 256 * x2 + 16 * x3 + x4) :: p.1, p.2))
            | _, _, _, _ => none
          | _ => none
        else none
    else if c.toNat < 32 then none
    else (parseStrRest cs).map (fun p => (c :: p.1, p.2))

/-- Parse the integer part of a JSON number (digits, no leading zero except a
lone zero), returning the consumed characters and the rest. -/
def parseIntDigits : List Char → Option (List Char × List Char)
  | [] => none
  | c :: rest =>
    if c.toNat == 48 then some ([c], rest)
    else if charIsDigit c then
      some ((c :: rest).takeWhile charIsDigit, (c :: rest).dropWhile charIsDigit)
    else none

/-- Parse an optional JSON fraction part. -/
def parseFracPart : List Char → Option (List Char × List Char)
  | [] => some ([], [])
  | c :: rest =>
    if c.toNat == 46 then
      match rest.takeWhile charIsDigit, rest.dropWhile charIsDigit with
      | [], _ => none
      | ds, r => some (c :: ds, r)
    else some ([], c :: rest)

/-- Parse an optional JSON exponent part. -/
def parseExpPart : List Char → Option (List Char × List Char)
  | [] => some ([], [])
  | c :: rest =>
    if c.toNat == 101 || c.toNat == 69 then
      let signAndRest : List Char × List Char :=
        match rest with
        | s :: r2 => if s.toNat == 43 || s.toNat == 45 then ([s], r2) else ([], s :: r2)
        | [] => ([], [])
      match signAndRest.2.takeWhile charIsDigit, signAndRest.2.dropWhile charIsDigit with
      | [], _ => none
      | ds, r => some (c :: (signAndRest.1 ++ ds), r)
    else some ([], c :: rest)

/-- Parse a JSON number lexeme (optional minus already included in the input). -/
def parseNumberLex (cs : List Char) : Option (List Char × List Char) :=
  let minusAndRest : List Char × List Char :=
    match cs with
    | c :: rest => if c.toNat == 45 then ([c], rest) else ([], c :: rest)
    | [] => ([], [])
  match parseIntDigits minusAndRest.2 with
  | none => none
  | some (ds, r1) =>
    match parseFracPart r1 with
    | none => none
    | some (fs, r2) =>
      match parseExpPart r2 with
      | none => none
      | some (es, r3) => some (minusAndRest.1 ++ ds ++ fs ++ es, r3)

mutual

/-- Parse one JSON value (fuel-driven recursive descent). -/
def parseVal : Nat → List Char → Option (JValue × List Char)
  | 0, _ => none
  | fuel + 1, cs =>
    match jsonSkipWs cs with
    | [] => none
    | c :: rest =>
      let n := c.toNat
      if n == 110 then
        match rest with
        | u :: l1 :: l2 :: r =>
          if u.toNat == 117 && l1.toNat == 108 && l2.toNat == 108 then some (.jnull, r) else none
        | _ => none
      else if n == 116 then
        match rest with
        | r1 :: u :: e1 :: r =>
          if r1.toNat == 114 && u.toNat == 117 && e1.toNat == 101 then some (.jbool true, r)
          else none
        | _ => none
      else if n == 102 then
        match rest with
        | a1 :: l1 :: s1 :: e1 :: r =>
          if a1.toNat == 97 && l1.toNat == 108 && s1.toNat == 115 && e1.toNat == 101 then
            some (.jbool false, r)
          else none
        | _ => none
      else if n == 34 then
        match parseStrRest rest with
        | some (chars, r) => some (.jstr (String.mk chars), r)
        | none => none
      else if n == 91 then
        match jsonSkipWs rest with
        | c2 :: r2 => if c2.toNat == 93 then some (.jarr [], r2) else parseElems fuel (c2 :: r2) []
        | [] => none
      else if n == 123 then
        match jsonSkipWs rest with
        | c2 :: r2 =>
          if c2.toNat == 125 then some (.jobj [], r2) else parseMembers fuel (c2 :: r2) []
        | [] => none
      else if n == 45 || charIsDigit c then
        match parseNumberLex (c :: rest) with
        | some (lex, r) => some (.jnum (String.mk lex), r)
        | none => none
      else none

/-- Parse the elements of a nonempty JSON array (after the opening bracket). -/
def parseElems : Nat → List Char → List JValue → Option (JValue × List Char)
  | 0, _, _ => none
  | fuel + 1, cs, acc =>
    match parseVal fuel cs with
    | none => none
    | some (v, r) =>
      match jsonSkipWs r with
      | c :: r2 =>
        if c.toNat == 44 then parseElems fuel r2 (acc ++ [v])
        else if c.toNat == 93 then some (.jarr (acc ++ [v]), r2)
        else none
      | [] => none

/-- Parse the members of a nonempty JSON object (after the opening brace). -/
def parseMembers : Nat → List Char → List (String × JValue) → Option (JValue × List Char)
  | 0, _, _ => none
  | fuel + 1, cs, acc =>
    match jsonSkipWs cs with
    | c :: rest =>
      if c.toNat == 34 then
        match parseStrRest rest with
        | some (key, r) =>
          match jsonSkipWs r with
          | c2 :: r2 =>
            if c2.toNat == 58 then
              match parseVal fuel r2 with
              | some (v, r3) =>
                match jsonSkipWs r3 with
                | c3 :: r4 =>
                  if c3.toNat == 44 then parseMembers fuel r4 (acc ++ [(String.mk key, v)])
                  else if c3.toNat == 125 then some (.jobj (acc ++ [(String.mk key, v)]), r4)
                  else none
                | [] => none
              | none => none
            else none
          | [] => none
        | none => none
      else none
    | [] => none

end

/-- JSON.parse on a string: parse one value and require only whitespace after
it; none models the SyntaxError throw. -/
def jsonParse (s : String) : Option JValue :=
  match parseVal (s.length + 1) s.data with
  | some (v, rest) => if (jsonSkipWs rest).isEmpty then some v else none
  | none => none

/-! ## JS property access, truthiness, and the Map payment store -/

/-- JS property access v.k: throws (none) on null/undefined, yields the field
for objects (later duplicate keys win, as in JSON.parse), and undefined on any
other receiver or missing field. -/
def jsGet (v : JValue) (k : String) : Option JValue :=
  match v with
  | .jnull => none
  | .jundefined => none
  | .jobj fields =>
    some (match (fields.filter (fun p => p.1 == k)).getLast? with
          | some p => p.2
          | none => .jundefined)
  | _ => some .jundefined

/-- Does a JSON number lexeme denote the number zero (significand all zeros)? -/
def numLexIsZero (s : String) : Bool :=
  (s.data.takeWhile (fun c => c.toNat != 101 && c.toNat != 69)).all
    (fun c => c.toNat == 45 || c.toNat == 46 || c.toNat == 48)

/-- JS truthiness of a value. -/
def truthyJ : JValue → Bool
  | .jnull => false
  | .jundefined => false
  | .jbool b => b
  | .jnum s => !(numLexIsZero s)
  | .jstr s => !(s == "")
  | .jarr _ => true
  | .jobj _ => true

/-- Strict equality of a value with a string literal (v === "s"). -/
def jIsStr (v : JValue) (s : String) : Bool :=
  match v with
  | .jstr t => t == s
  | _ => false

/-- Map keys for the in-memory paymentStore.  JS Map uses SameValueZero
equality: on primitives that is value equality, which these constructors
model; arrays and objects compare by reference in JS, which a pure embedding
cannot express, so they are collapsed into kref (the claims only ever involve
string order ids, where the model is exact). -/
inductive JKey where
  | kstr (s : String)
  | knum (lexeme : String)
  | kbool (b : Bool)
  | knull
  | kundefined
  | kref
deriving DecidableEq, Repr

/-- The Map key corresponding to a JS value. -/
def keyOf : JValue → JKey
  | .jstr s => .kstr s
  | .jnum s => .knum s
  | .jbool b => .kbool b
  | .jnull => .knull
  | .jundefined => .kundefined
  | .jarr _ => .kref
  | .jobj _ => .kref

/-- The in-memory paymentStore (src/server.js line 18): a JS Map, modelled as
an insertion-ordered association list with unique keys. -/
abbrev PayStore := List (JKey × String)

/-- Map.prototype.set: overwrite the entry in place if the key exists (Map
keys are unique, so the first match is the entry), else append at the end. -/
def storeSet : PayStore → JKey → String → PayStore
  | [], k, v => [(k, v)]
  | p :: m, k, v => if p.1 == k then (k, v) :: m else p :: storeSet m k v

/-- Map.prototype.get (undefined for a missing key becomes none). -/
def storeGet : PayStore → JKey → Option String
  | [], _ => none
  | p :: m, k => if p.1 == k then some p.2 else storeGet m k

example : jsonParse "\x7b\"event\":\"invoice_paid\",\"data\":\x7b\"id\":5\x7d\x7d" =
    some (.jobj [("event", .jstr "invoice_paid"), ("data", .jobj [("id", .jnum "5")])]) := rfl

example : jsonParse "\x7b\"a\": [1, true, null, \"x\"]" = none := rfl

/-! ## The webhook handlers

src/server.js lines 22-55 (algorithm name "sha266" — the typo observed in the
source) and the corrected variant appended to src/api/check-status.js lines
71-102 (algorithm name "sha256", no store).  Both share:

    const signature = req.headers[paidly-signature];
    if (!signature) return res.status(400)...
    try {
      const hmac = crypto.createHmac(algo, SECRET); hmac.update(req.body);
      const expectedSignature = hmac.digest(hex);
      const trusted = Buffer.from(expectedSignature, hex);
      const untrusted = Buffer.from(signature, hex);
      if (!crypto.timingSafeEqual(trusted, untrusted)) return res.status(401)...
      const event = JSON.parse(req.body.toString());
      ... event processing ...
      res.status(200)...
    } catch { res.status(500)... }

crypto.createHmac throws on an unknown algorithm name (so "sha266" always
lands in the catch), and crypto.timingSafeEqual throws when the two buffers
have different lengths. -/

/-- Outcome of the signature-verification prefix of the webhook handler. -/
inductive SigCheck where
  | noSig
  | badAlgo
  | lenThrow
  | badSig
  | okSig
deriving DecidableEq, Repr

/-- The verification steps shared by both webhook handlers, in source order:
falsy-signature fast path, createHmac (throws unless the algorithm name is a
real digest — "sha256" is the only one these variants mention), hex digest,
hex decoding of both sides, and timingSafeEqual (throws on length mismatch). -/
def sigCheck (algo : String) (secret : List Nat) (signature : Option String)
    (bodyBytes : List Nat) : SigCheck :=
  match signature with
  | none => .noSig
  | some s =>
    if s == "" then .noSig
    else if !(algo == "sha256") then .badAlgo
    else
      let trusted := hexDecodeNode (hexEncodeChars (hmacSha256 secret bodyBytes))
      let untrusted := hexDecodeNode s.data
      if !(trusted.length == untrusted.length) then .lenThrow
      else if !(trusted == untrusted) then .badSig
      else .okSig

/-- Event processing of src/server.js lines 39-49 after verification: read
event.event (a throw on null becomes none), and on an invoice_paid event read
event.data.metadata.OrderId; a truthy order id requests the store write
(some (some key)), anything else completes without writing (some none). -/
def serverProcessEvent (ev : JValue) : Option (Option JKey) :=
  match jsGet ev "event" with
  | none => none
  | some e =>
    if jIsStr e "invoice_paid" then
      match jsGet ev "data" with
      | none => none
      | some invoice =>
        match jsGet invoice "metadata" with
        | none => none
        | some md =>
          match jsGet md "OrderId" with
          | none => none
          | some oid => if truthyJ oid then some (some (keyOf oid)) else some none
    else some none

/-- Result of one webhook delivery to the src/server.js handler. -/
structure ServerWebhookResult where
  status : Nat
  store : PayStore
  hmacDigests : Nat
  verified : Bool
deriving DecidableEq, Repr

/-- The src/server.js /paidly-webhook handler, parameterized by the algorithm
name passed to createHmac (the source passes "sha266").  hmacDigests counts
completed HMAC digests, verified records whether timingSafeEqual succeeded. -/
def serverWebhook (algo : String) (secret : List Nat) (store : PayStore)
    (signature : Option String) (body : String) : ServerWebhookResult :=
  match sigCheck algo secret signature (utf8Encode body) with
  | .noSig => ⟨400, store, 0, false⟩
  | .badAlgo => ⟨500, store, 0, false⟩
  | .lenThrow => ⟨500, store, 1, false⟩
  | .badSig => ⟨401, store, 1, false⟩
  | .okSig =>
    match jsonParse body with
    | none => ⟨500, store, 1, true⟩
    | some ev =>
      match serverProcessEvent ev with
      | none => ⟨500, store, 1, true⟩
      | some none => ⟨200, store, 1, true⟩
      | some (some k) => ⟨200, storeSet store k "Paid", 1, true⟩

/-- The src/server.js handler exactly as written, with the malformed
algorithm name. -/
def serverJsWebhook : List Nat → PayStore → Option String → String → ServerWebhookResult :=
  serverWebhook "sha266"

/-- Event processing of the corrected (Vercel) variant, src/api/check-status.js
lines 88-95: log event.event, and on invoice_paid log event.data.id (property
accesses that throw become none). -/
def vercelProcessEvent (ev : JValue) : Option Unit :=
  match jsGet ev "event" with
  | none => none
  | some e =>
    if jIsStr e "invoice_paid" then
      match jsGet ev "data" with
      | none => none
      | some d =>
        match jsGet d "id" with
        | none => none
        | some _ => some ()
    else some ()

/-- Result of one webhook delivery to the corrected (stateless) handler. -/
structure VercelWebhookResult where
  status : Nat
  hmacDigests : Nat
  verified : Bool
deriving DecidableEq, Repr

/-- The corrected /paidly-webhook handler (src/api/check-status.js appended
server, "Fixed typo: sha266 -> sha256"); stateless. -/
def vercelWebhook (secret : List Nat) (signature : Option String) (body : String) :
    VercelWebhookResult :=
  match sigCheck "sha256" secret signature (utf8Encode body) with
  | .noSig => ⟨400, 0, false⟩
  | .badAlgo => ⟨500, 0, false⟩
  | .lenThrow => ⟨500, 1, false⟩
  | .badSig => ⟨401, 1, false⟩
  | .okSig =>
    match jsonParse body with
    | none => ⟨500, 1, true⟩
    | some ev =>
      match vercelProcessEvent ev with
      | none => ⟨500, 1, true⟩
      | some _ => ⟨200, 1, true⟩

/-- The store write (if any) a webhook delivery performs, as determined by the
raw body alone: the key whose status is set to "Paid". -/
def webhookStoreEffect (body : String) : Option JKey :=
  match jsonParse body with
  | none => none
  | some ev =>
    match serverProcessEvent ev with
    | some (some k) => some k
    | _ => none

/-- The /check-status/:orderId handler of src/server.js lines 119-123:
paymentStore.get(orderId) with a JS falsy-coalescing default "Not Found". -/
def checkStatusResp (store : PayStore) (orderId : String) : String :=
  match storeGet store (.kstr orderId) with
  | some v => if v == "" then "Not Found" else v
  | none => "Not Found"

/-! ## Basic facts about the crypto and store primitives -/

theorem beBytes_length (count n : Nat) : (beBytes count n).length = count := by
  simp [beBytes]

theorem mem_beBytes_lt (count n b : Nat) (hb : b ∈ beBytes count n) : b < 256 := by
  simp only [beBytes, List.mem_map] at hb
  obtain ⟨i, _, rfl⟩ := hb
  exact Nat.mod_lt _ (by norm_num)

theorem sha256_length (msg : List Nat) : (sha256 msg).length = 32 := by
  simp [sha256, beBytes_length]

theorem mem_sha256_lt (msg : List Nat) (b : Nat) (hb : b ∈ sha256 msg) : b < 256 := by
  simp only [sha256, List.mem_append, or_assoc] at hb
  rcases hb with hb | hb | hb | hb | hb | hb | hb | hb <;> exact mem_beBytes_lt _ _ _ hb

theorem hmacSha256_length (key msg : List Nat) : (hmacSha256 key msg).length = 32 :=
  sha256_length _

theorem mem_hmacSha256_lt (key msg : List Nat) (b : Nat) (hb : b ∈ hmacSha256 key msg) :
    b < 256 :=
  mem_sha256_lt _ _ hb

theorem hexVal_nibbleChar (x : Nat) (h : x < 16) : hexVal (nibbleChar x) = some x := by
  have hall : ∀ y, y < 16 → hexVal (nibbleChar y) = some y := by decide
  exact hall x h

theorem hexDecode_hexEncode (bs : List Nat) (h : ∀ b ∈ bs, b < 256) :
    hexDecodeNode (hexEncodeChars bs) = bs := by
  induction bs with
  | nil => rfl
  | cons b bs ih =>
    have hb : b < 256 := h b (by simp)
    have h1 : b / 16 % 16 < 16 := Nat.mod_lt _ (by norm_num)
    have h2 : b % 16 < 16 := Nat.mod_lt _ (by norm_num)
    show hexDecodeNode (nibbleChar (b / 16 % 16) :: nibbleChar (b % 16) :: hexEncodeChars bs) =
      b :: bs
    simp only [hexDecodeNode, hexVal_nibbleChar _ h1, hexVal_nibbleChar _ h2]
    rw [ih (fun x hx => h x (by simp [hx]))]
    have : 16 * (b / 16 % 16) + b % 16 = b := by omega
    rw [this]

theorem sigCheck_badAlgo (algo : String) (secret : List Nat) (s : String) (bb : List Nat)
    (hs : (s == "") = false) (ha : (algo == "sha256") = false) :
    sigCheck algo secret (some s) bb = .badAlgo := by
  simp [sigCheck, hs, ha]

theorem sigCheck_sha256_eq (secret : List Nat) (s : String) (bb : List Nat)
    (hs : (s == "") = false) :
    sigCheck "sha256" secret (some s) bb =
      if (hexDecodeNode s.data).length = 32 then
        if hexDecodeNode s.data = hmacSha256 secret bb then .okSig else .badSig
      else .lenThrow := by
  have htr : hexDecodeNode (hexEncodeChars (hmacSha256 secret bb)) = hmacSha256 secret bb :=
    hexDecode_hexEncode _ (mem_hmacSha256_lt _ _)
  have hlen : (hmacSha256 secret bb).length = 32 := hmacSha256_length _ _
  by_cases hl : (hexDecodeNode s.data).length = 32
  · by_cases he : hexDecodeNode s.data = hmacSha256 secret bb
    · simp [sigCheck, hs, htr, hlen, hl, he]
    · have he2 : ¬(hmacSha256 secret bb = hexDecodeNode s.data) := fun hh => he hh.symm
      simp [sigCheck, hs, htr, hlen, hl, he, he2]
  · have hl2 : ¬(32 = (hexDecodeNode s.data).length) := fun hh => hl hh.symm
    simp [sigCheck, hs, htr, hlen, hl2, hl]

/-- The store write a delivery performs, combining verification and event
processing (none means the store is left unchanged). -/
def serverWebhookEffect (algo : String) (secret : List Nat) (sig : Option String)
    (body : String) : Option JKey :=
  match sigCheck algo secret sig (utf8Encode body) with
  | .okSig => webhookStoreEffect body
  | _ => none

theorem serverWebhook_store_eq (algo : String) (secret : List Nat) (store : PayStore)
    (sig : Option String) (body : String) :
    (serverWebhook algo secret store sig body).store =
      match serverWebhookEffect algo secret sig body with
      | some k => storeSet store k "Paid"
      | none => store := by
  unfold serverWebhook serverWebhookEffect webhookStoreEffect
  cases hs : sigCheck algo secret sig (utf8Encode body) <;> simp
  cases hj : jsonParse body <;> simp
  rename_i ev
  cases hp : serverProcessEvent ev with
  | none => simp
  | some o => cases o <;> simp

theorem storeSet_idem (m : PayStore) (k : JKey) (v : String) :
    storeSet (storeSet m k v) k v = storeSet m k v := by
  induction m with
  | nil => simp [storeSet]
  | cons p m ih =>
    by_cases h : p.1 = k
    · simp [storeSet, h]
    · simp [storeSet, h, ih]

theorem storeGet_storeSet_self (m : PayStore) (k : JKey) (v : String) :
    storeGet (storeSet m k v) k = some v := by
  induction m with
  | nil => simp [storeSet, storeGet]
  | cons p m ih =>
    by_cases h : p.1 = k
    · simp [storeSet, h, storeGet]
    · simp [storeSet, h, storeGet, ih]

theorem storeGet_storeSet_ne (m : PayStore) (k k' : JKey) (v : String) (h : k' ≠ k) :
    storeGet (storeSet m k v) k' = storeGet m k' := by
  have hkk : ¬(k = k') := fun hh => h hh.symm
  induction m with
  | nil => simp [storeSet, storeGet, hkk]
  | cons p m ih =>
    by_cases hp : p.1 = k
    · have hp' : ¬(p.1 = k') := by rw [hp]; exact hkk
      simp [storeSet, storeGet, hp, hp', hkk]
    · by_cases hp' : p.1 = k'
      · simp [storeSet, storeGet, hp, hp', h, hkk]
      · simp [storeSet, storeGet, hp, hp', ih]

theorem mem_storeSet (m : PayStore) (k : JKey) (v : String) (p : JKey × String)
    (hp : p ∈ storeSet m k v) : p ∈ m ∨ p = (k, v) := by
  induction m with
  | nil => simpa [storeSet] using hp
  | cons q m ih =>
    by_cases h : q.1 = k
    · simp [storeSet, h] at hp
      rcases hp with hp | hp
      · right; simp [hp]
      · left; simp [hp]
    · simp [storeSet, h] at hp
      rcases hp with hp | hp
      · left; simp [hp]
      · rcases ih hp with h2 | h2
        · left; simp [h2]
        · right; exact h2

theorem storeGet_mem (m : PayStore) (k : JKey) (v : String) (h : storeGet m k = some v) :
    ∃ p, p ∈ m ∧ p.2 = v := by
  induction m with
  | nil => simp [storeGet] at h
  | cons p m ih =>
    by_cases hp : p.1 = k
    · simp [storeGet, hp] at h
      exact ⟨p, by simp, h⟩
    · simp [storeGet, hp] at h
      obtain ⟨q, hq, hv⟩ := ih h
      exact ⟨q, by simp [hq], hv⟩

theorem serverWebhook_store_stable (algo : String) (secret : List Nat) (store : PayStore)
    (sig : Option String) (body : String) :
    (serverWebhook algo secret (serverWebhook algo secret store sig body).store sig
        body).store = (serverWebhook algo secret store sig body).store := by
  cases heff : serverWebhookEffect algo secret sig body with
  | none => simp only [serverWebhook_store_eq, heff]
  | some k =>
    simp only [serverWebhook_store_eq, heff]
    exact storeSet_idem _ _ _

/-- Deliver the same webhook request n times in sequence to the src/server.js
handler, starting from a given store, and return the final store. -/
def deliverTimes (algo : String) (secret : List Nat) (sig : Option String) (body : String) :
    Nat → PayStore → PayStore
  | 0, st => st
  | n + 1, st =>
    deliverTimes algo secret sig body n (serverWebhook algo secret st sig body).store

/-- C6: delivering the same webhook request any number of times (one or more)
leaves the payment store exactly as a single delivery does, and when the
request is a verified paid event whose metadata order id is the string oid,
that delivery maps oid to "Paid" and changes no other entry. -/
theorem webhook_paid_delivery_idempotent (algo : String) (secret : List Nat)
    (sig : Option String) (body : String) (store : PayStore) :
    (∀ n : Nat, deliverTimes algo secret sig body (n + 1) store =
        (serverWebhook algo secret store sig body).store) ∧
    (∀ oid : String,
        serverWebhookEffect algo secret sig body = some (.kstr oid) →
        storeGet (serverWebhook algo secret store sig body).store (.kstr oid) = some "Paid" ∧
        ∀ k : JKey, k ≠ .kstr oid →
          storeGet (serverWebhook algo secret store sig body).store k = storeGet store k) := by
  constructor
  · intro n
    induction n generalizing store with
    | zero => rfl
    | succ n ih =>
      show deliverTimes algo secret sig body (n + 1)
          (serverWebhook algo secret store sig body).store = _
      rw [ih, serverWebhook_store_stable]
  · intro oid heff
    have h1 : (serverWebhook algo secret store sig body).store =
        storeSet store (.kstr oid) "Paid" := by
      rw [serverWebhook_store_eq, heff]
    rw [h1]
    exact ⟨storeGet_storeSet_self _ _ _, fun k hk => storeGet_storeSet_ne _ _ _ _ hk⟩

/-- A concrete verified paid webhook body for the C6 witness. -/
def c6Body : String :=
  "\x7b\"event\":\"invoice_paid\",\"data\":\x7b\"metadata\":\x7b\"OrderId\":\"o1\"\x7d\x7d\x7d"

/-- The correct signature header value for c6Body under the one-byte secret k. -/
def c6Sig : String := hexEncode (hmacSha256 [107] (utf8Encode c6Body))

theorem webhook_paid_delivery_idempotent_witness :
    deliverTimes "sha256" [107] (some c6Sig) c6Body 2 [] =
      (serverWebhook "sha256" [107] [] (some c6Sig) c6Body).store ∧
    storeGet (serverWebhook "sha256" [107] [] (some c6Sig) c6Body).store (.kstr "o1") =
      some "Paid" ∧
    storeGet (serverWebhook "sha256" [107] [] (some c6Sig) c6Body).store (.kstr "x") =
      storeGet ([] : PayStore) (.kstr "x") := by
  have h := webhook_paid_delivery_idempotent "sha256" [107] (some c6Sig) c6Body []
  have h2 := h.2 "o1" (by decide)
  exact ⟨h.1 1, h2.1, h2.2 (.kstr "x") (by decide)⟩

/-- C7: a webhook request with no signature header is rejected with 400 before
any HMAC digest is computed, and the store is left untouched, in both handler
variants. -/
theorem webhook_missing_signature_fast_fail (algo : String) (secret : List Nat)
    (store : PayStore) (body : String) :
    serverWebhook algo secret store none body = ⟨400, store, 0, false⟩ ∧
    vercelWebhook secret none body = ⟨400, 0, false⟩ := by
  constructor <;> rfl

/-- C8: a status query for an order id with no entry in the store returns the
sentinel "Not Found"; the handler is a total function of the store and the
path parameter, so it can neither throw nor produce an error response. -/
theorem check_status_unknown_not_found (store : PayStore) (oid : String)
    (h : storeGet store (.kstr oid) = none) :
    checkStatusResp store oid = "Not Found" := by
  simp [checkStatusResp, h]

theorem check_status_unknown_not_found_witness :
    storeGet ([] : PayStore) (.kstr "missing") = none ∧
    checkStatusResp [] "missing" = "Not Found" :=
  ⟨rfl, check_status_unknown_not_found [] "missing" rfl⟩

/-- States of paymentStore reachable through the operations of src/server.js:
the Map starts empty, /create-payment sets a fresh order id string to "New"
(line 93), and each webhook delivery runs the /paidly-webhook handler; these
are the only writes to the store in the file. -/
inductive ReachablePayStore : PayStore → Prop
  | init : ReachablePayStore []
  | createPayment (s : PayStore) (oid : String) :
      ReachablePayStore s → ReachablePayStore (storeSet s (.kstr oid) "New")
  | webhook (s : PayStore) (algo : String) (secret : List Nat) (sig : Option String)
      (body : String) :
      ReachablePayStore s → ReachablePayStore (serverWebhook algo secret s sig body).store

/-- C10: in every reachable store state, every stored value is "New" or
"Paid", and consequently a status query returns exactly one of "New", "Paid",
or "Not Found". -/
theorem paymentStore_value_invariant (s : PayStore) (hr : ReachablePayStore s) :
    (∀ p ∈ s, p.2 = "New" ∨ p.2 = "Paid") ∧
    (∀ oid : String, checkStatusResp s oid = "New" ∨ checkStatusResp s oid = "Paid" ∨
      checkStatusResp s oid = "Not Found") := by
  have hval : ∀ p ∈ s, p.2 = "New" ∨ p.2 = "Paid" := by
    induction hr with
    | init => simp
    | createPayment s oid hr ih =>
      intro p hp
      rcases mem_storeSet _ _ _ _ hp with h | h
      · exact ih p h
      · left; rw [h]
    | webhook s algo secret sig body hr ih =>
      intro p hp
      rw [serverWebhook_store_eq] at hp
      cases heff : serverWebhookEffect algo secret sig body with
      | none => rw [heff] at hp; exact ih p hp
      | some k =>
        rw [heff] at hp
        rcases mem_storeSet _ _ _ _ hp with h | h
        · exact ih p h
        · right; rw [h]
  refine ⟨hval, fun oid => ?_⟩
  unfold checkStatusResp
  cases hg : storeGet s (.kstr oid) with
  | none => right; right; rfl
  | some v =>
    obtain ⟨p, hp, hv⟩ := storeGet_mem _ _ _ hg
    rcases hval p hp with h | h
    · have hv2 : v = "New" := (hv.symm.trans h)
      subst hv2
      left; rfl
    · have hv2 : v = "Paid" := (hv.symm.trans h)
      subst hv2
      right; left; rfl

theorem paymentStore_value_invariant_witness :
    checkStatusResp (storeSet [] (.kstr "o1") "New") "o1" = "New" ∨
    checkStatusResp (storeSet [] (.kstr "o1") "New") "o1" = "Paid" ∨
    checkStatusResp (storeSet [] (.kstr "o1") "New") "o1" = "Not Found" :=
  (paymentStore_value_invariant _
    (ReachablePayStore.createPayment _ "o1" ReachablePayStore.init)).2 "o1"

theorem vercelWebhook_okSig (secret : List Nat) (s body : String)
    (hok : sigCheck "sha256" secret (some s) (utf8Encode body) = .okSig) :
    vercelWebhook secret (some s) body =
      ⟨if ((jsonParse body).bind vercelProcessEvent).isSome then 200 else 500, 1, true⟩ := by
  unfold vercelWebhook
  rw [hok]
  cases hj : jsonParse body with
  | none => rfl
  | some ev =>
    cases hp : vercelProcessEvent ev with
    | none => simp [hp]
    | some u => simp [hp]

/-- C1 (amended): for the corrected sha256 variant, verification succeeds iff
the signature header hex-decodes (Node Buffer.from semantics) to exactly the
32 HMAC-SHA256 bytes of the raw body — so string equality with the lowercase
hex digest is sufficient but not necessary (uppercase hex, or trailing junk
after 64 correct digits, also verifies); a verified request answers 200 when
body processing succeeds and 500 otherwise; an unverified request is never
accepted, with 401 exactly when the decoded signature has the full 32-byte
length and 500 for any other decoded length; and in src/server.js the
malformed algorithm name "sha266" makes createHmac throw, so every request
with a non-empty signature gets 500 and nothing is ever accepted there. -/
theorem webhook_signature_accept_iff (secret : List Nat) (s body : String)
    (hs : s ≠ "") :
    ((hexDecodeNode s.data = hmacSha256 secret (utf8Encode body)) ↔
      (vercelWebhook secret (some s) body).verified = true) ∧
    ((vercelWebhook secret (some s) body).verified = true →
      ((vercelWebhook secret (some s) body).status = 200 ↔
        ((jsonParse body).bind vercelProcessEvent).isSome = true)) ∧
    ((vercelWebhook secret (some s) body).verified = false →
      (vercelWebhook secret (some s) body).status = 401 ∨
      (vercelWebhook secret (some s) body).status = 500) ∧
    ((hexDecodeNode s.data).length = 32 →
      hexDecodeNode s.data ≠ hmacSha256 secret (utf8Encode body) →
      (vercelWebhook secret (some s) body).status = 401) ∧
    (∀ store : PayStore,
      serverJsWebhook secret store (some s) body = ⟨500, store, 0, false⟩) := by
  have hsb : (s == "") = false := by
    rw [beq_eq_false_iff_ne]
    exact hs
  have hserver : ∀ store : PayStore,
      serverJsWebhook secret store (some s) body = ⟨500, store, 0, false⟩ := by
    intro store
    unfold serverJsWebhook serverWebhook
    rw [sigCheck_badAlgo _ _ _ _ hsb (by rfl)]
  have hbase := sigCheck_sha256_eq secret s (utf8Encode body) hsb
  by_cases hl : (hexDecodeNode s.data).length = 32
  · by_cases he : hexDecodeNode s.data = hmacSha256 secret (utf8Encode body)
    · have hok : sigCheck "sha256" secret (some s) (utf8Encode body) = .okSig := by
        rw [hbase]; simp [hl, he, hmacSha256_length]
      rw [vercelWebhook_okSig secret s body hok]
      refine ⟨?_, ?_, ?_, ?_, hserver⟩
      · simp [he]
      · intro _
        by_cases hp : ((jsonParse body).bind vercelProcessEvent).isSome = true
        · simp [hp]
        · simp [hp]
      · simp
      · intro _ hne
        exact absurd he hne
    · have hbad : sigCheck "sha256" secret (some s) (utf8Encode body) = .badSig := by
        rw [hbase]; simp [hl, he, hmacSha256_length]
      have hr : vercelWebhook secret (some s) body = ⟨401, 1, false⟩ := by
        unfold vercelWebhook
        rw [hbad]
      rw [hr]
      exact ⟨by simp [he], by simp, fun _ => Or.inl rfl, fun _ _ => rfl, hserver⟩
  · have hthrow : sigCheck "sha256" secret (some s) (utf8Encode body) = .lenThrow := by
      rw [hbase]; simp [hl]
    have hr : vercelWebhook secret (some s) body = ⟨500, 1, false⟩ := by
      unfold vercelWebhook
      rw [hthrow]
    have hne : ¬(hexDecodeNode s.data = hmacSha256 secret (utf8Encode body)) := by
      intro he
      exact hl (by rw [he]; exact hmacSha256_length _ _)
    rw [hr]
    exact ⟨by simp [hne], by simp, fun _ => Or.inr rfl, fun h32 _ => absurd h32 hl, hserver⟩

theorem webhook_signature_accept_iff_cex :
    "00" ≠ hexEncode (hmacSha256 [107] (utf8Encode "\x7b\x7d")) ∧
    (vercelWebhook [107] (some "00") "\x7b\x7d").status = 500 ∧
    (vercelWebhook [107] (some "00") "\x7b\x7d").status ≠ 401 := by decide

/-- Concrete body for the C1 witness. -/
def c1Body : String := "\x7b\x7d"

/-- The correct signature for c1Body under the one-byte secret k. -/
def c1Sig : String := hexEncode (hmacSha256 [107] (utf8Encode c1Body))

/-- A well-formed (32-byte) but wrong signature for c1Body: the digest under a
different secret. -/
def c1BadSig : String := hexEncode (hmacSha256 [108] (utf8Encode c1Body))

theorem webhook_signature_accept_iff_witness :
    (vercelWebhook [107] (some c1Sig) c1Body).verified = true ∧
    (vercelWebhook [107] (some c1Sig) c1Body).status = 200 ∧
    (vercelWebhook [107] (some c1BadSig) c1Body).status = 401 ∧
    (serverJsWebhook [107] [] (some c1Sig) c1Body).status = 500 := by
  have h1 := webhook_signature_accept_iff [107] c1Sig c1Body (by decide)
  have h2 := webhook_signature_accept_iff [107] c1BadSig c1Body (by decide)
  have hver : (vercelWebhook [107] (some c1Sig) c1Body).verified = true :=
    h1.1.mp (by decide)
  refine ⟨hver, (h1.2.1 hver).mpr (by decide), h2.2.2.2.1 (by decide) (by decide), ?_⟩
  rw [h1.2.2.2.2 []]

/-- C3 (amended): a signature whose Node hex decoding does not yield exactly
32 bytes — in particular any signature with no leading valid hex pair, which
decodes to 0 bytes — is rejected without the event being processed and
without a crash (the timingSafeEqual throw is caught), but with a 500
response, not the 401 the inbound-surface contract names; 401 is reserved for
well-formed 32-byte signatures that mismatch.  In src/server.js the same
inputs also answer 500 (for any algorithm name), and the store is untouched
in both variants. -/
theorem webhook_undecodable_signature_rejected (algo : String) (secret : List Nat)
    (store : PayStore) (s body : String) (hs : s ≠ "")
    (hl : (hexDecodeNode s.data).length ≠ 32) :
    (vercelWebhook secret (some s) body).status = 500 ∧
    (vercelWebhook secret (some s) body).verified = false ∧
    (serverWebhook algo secret store (some s) body).status = 500 ∧
    (serverWebhook algo secret store (some s) body).store = store ∧
    (serverWebhook algo secret store (some s) body).verified = false := by
  have hsb : (s == "") = false := by
    rw [beq_eq_false_iff_ne]
    exact hs
  have hthrow : sigCheck "sha256" secret (some s) (utf8Encode body) = .lenThrow := by
    rw [sigCheck_sha256_eq secret s (utf8Encode body) hsb]; simp [hl]
  by_cases ha : algo = "sha256"
  · subst ha
    unfold vercelWebhook serverWebhook
    rw [hthrow]
    exact ⟨rfl, rfl, rfl, rfl, rfl⟩
  · have ha2 : (algo == "sha256") = false := by
      rw [beq_eq_false_iff_ne]
      exact ha
    have hsrv : sigCheck algo secret (some s) (utf8Encode body) = .badAlgo :=
      sigCheck_badAlgo _ _ _ _ hsb ha2
    unfold vercelWebhook serverWebhook
    rw [hthrow, hsrv]
    exact ⟨rfl, rfl, rfl, rfl, rfl⟩

theorem webhook_undecodable_signature_rejected_cex :
    hexDecodeNode "zz".data = [] ∧
    (vercelWebhook [107] (some "zz") "x").status = 500 ∧
    (vercelWebhook [107] (some "zz") "x").status ≠ 401 ∧
    (serverJsWebhook [107] [] (some "zz") "x").status = 500 := by decide

theorem webhook_undecodable_signature_rejected_witness :
    (vercelWebhook [2] (some "!!") "y").status = 500 ∧
    (serverWebhook "sha266" [2] [] (some "!!") "y").store = [] := by
  have h := webhook_undecodable_signature_rejected "sha266" [2] [] "!!" "y"
    (by decide) (by decide)
  exact ⟨h.1, h.2.2.2.1⟩

/-! ## sanitizeMetadata (src/api/create-invoice.js lines 9-13)

    function sanitizeMetadata(value) :
        return value.replace(backslash-s-plus (global), underscore)
                    .replace(not [a-zA-Z0-9_-] (global), empty)
-/

/-- The whitespace class of the JS regex escape backslash-s: tab, line feed,
vertical tab, form feed, carriage return, space, NBSP, Ogham space mark, the
en-quad..hair-space range, line and paragraph separators, narrow NBSP, math
space, ideographic space, and BOM. -/
def isJsWs (c : Char) : Bool :=
  [9, 10, 11, 12, 13, 32, 160, 5760, 8232, 8233, 8239, 8287, 12288, 65279].contains c.toNat ||
  (8192 ≤ c.toNat && c.toNat ≤ 8202)

/-- The metadata character class [A-Za-z0-9_-]. -/
def isMetaChar (c : Char) : Bool :=
  (97 ≤ c.toNat && c.toNat ≤ 122) || (65 ≤ c.toNat && c.toNat ≤ 90) ||
  (48 ≤ c.toNat && c.toNat ≤ 57) || c.toNat == 95 || c.toNat == 45

/-- The global replace of each whitespace run by one underscore, as a
left-to-right scan: prevWs records whether the previous character was
whitespace, so each maximal run emits exactly one underscore. -/
def collapseWsGo (prevWs : Bool) : List Char → List Char
  | [] => []
  | c :: cs =>
    if isJsWs c then
      if prevWs then collapseWsGo true cs else '_' :: collapseWsGo true cs
    else c :: collapseWsGo false cs

/-- sanitizeMetadata of src/api/create-invoice.js (same function in
src/unnamed/part_001 and part_003): collapse each whitespace run to one
underscore, then strip characters outside [A-Za-z0-9_-]. -/
def sanitizeMetadata (value : String) : String :=
  String.mk ((collapseWsGo false value.data).filter isMetaChar)

theorem length_dropWhile_le {a : Type} (p : a → Bool) (l : List a) :
    (l.dropWhile p).length ≤ l.length := by
  induction l with
  | nil => simp
  | cons d ds ih =>
    by_cases hd : p d
    · simp only [List.dropWhile_cons, hd, if_true, List.length_cons]
      omega
    · simp [List.dropWhile_cons, hd]

/-- Modelled on the words of the spec sentence: replace every maximal run of
whitespace with a single underscore — on meeting a whitespace character, emit
one underscore and skip the entire run. -/
def collapseWsSpec : List Char → List Char
  | [] => []
  | c :: cs =>
    if isJsWs c then '_' :: collapseWsSpec (cs.dropWhile isJsWs)
    else c :: collapseWsSpec cs
termination_by l => l.length
decreasing_by
  all_goals simp only [List.length_cons]
  · exact Nat.lt_succ_of_le (length_dropWhile_le _ _)
  · omega

/-- The spec phrasing of the whole sanitizer. -/
def sanitizeMetadataSpec (value : String) : String :=
  String.mk ((collapseWsSpec value.data).filter isMetaChar)

theorem collapseWsGo_true_dropWhile (cs : List Char) :
    collapseWsGo true cs = collapseWsGo false (cs.dropWhile isJsWs) := by
  induction cs with
  | nil => rfl
  | cons c cs ih =>
    by_cases h : isJsWs c
    · simp only [collapseWsGo, h, if_true, List.dropWhile_cons]
      exact ih
    · simp only [collapseWsGo, h, List.dropWhile_cons, if_false, Bool.false_eq_true]

theorem collapseWsGo_eq_spec (l : List Char) : collapseWsGo false l = collapseWsSpec l := by
  have main : ∀ n : Nat, ∀ l : List Char, l.length ≤ n →
      collapseWsGo false l = collapseWsSpec l := by
    intro n
    induction n with
    | zero =>
      intro l hl
      have hnil : l = [] := List.eq_nil_of_length_eq_zero (Nat.le_zero.mp hl)
      subst hnil
      rw [collapseWsSpec.eq_1]
      rfl
    | succ n ih =>
      intro l hl
      cases l with
      | nil =>
        rw [collapseWsSpec.eq_1]
        rfl
      | cons c cs =>
        have hcs : cs.length ≤ n := by
          simp only [List.length_cons] at hl
          omega
        rw [collapseWsSpec.eq_2]
        by_cases h : isJsWs c
        · rw [if_pos h]
          simp only [collapseWsGo, h, if_true, Bool.false_eq_true, if_false]
          rw [collapseWsGo_true_dropWhile,
            ih (cs.dropWhile isJsWs) (le_trans (length_dropWhile_le _ _) hcs)]
        · rw [if_neg h]
          simp only [collapseWsGo, h, if_false, Bool.false_eq_true]
          rw [ih cs hcs]
  exact main l.length l (le_refl _)

/-- C9: sanitizeMetadata agrees with the spec description — every maximal
whitespace run becomes a single underscore and characters outside
[A-Za-z0-9_-] are removed — and consequently every character of its output
lies in [A-Za-z0-9_-]. -/
theorem sanitizeMetadata_follows_spec (value : String) :
    sanitizeMetadata value = sanitizeMetadataSpec value ∧
    ∀ c ∈ (sanitizeMetadata value).data, isMetaChar c = true := by
  constructor
  · unfold sanitizeMetadata sanitizeMetadataSpec
    rw [collapseWsGo_eq_spec]
  · intro c hc
    have hc2 : c ∈ (collapseWsGo false value.data).filter isMetaChar := hc
    exact (List.mem_filter.mp hc2).2

theorem sanitizeMetadata_follows_spec_witness :
    sanitizeMetadata "a b!c" = sanitizeMetadataSpec "a b!c" ∧ isMetaChar '_' = true :=
  ⟨(sanitizeMetadata_follows_spec "a b!c").1,
   (sanitizeMetadata_follows_spec "a b!c").2 '_' (by decide)⟩

example : sanitizeMetadata "  Hello,\t\n  world! " = "_Hello_world_" := by decide

example : sanitizeMetadata "Coffee & Bagel x2" = "Coffee__Bagel_x2" := by decide

/-! ## The createInvoice orchestration (src/api/create-invoice.js)

The handler builds the invoice payload (with the sanitized description as
metadata), issues the create call (not retried; a failure is a 500 with
detail), then polls the payment-methods endpoint with a bounded retry budget
and shapes the response.  The upstream is a black box, so the embedding takes
the create call outcome and the per-attempt poll responses as inputs. -/

/-- One payment-method entry of the upstream response.  The amount fields are
held as strings; the handler only copies them. -/
structure PMEntry where
  paymentMethod : String
  destination : Option String
  amount : Option String
  cryptoAmount : Option String
deriving DecidableEq, Repr

/-- JS truthiness of an optional string (undefined and the empty string are
falsy). -/
def truthyOpt : Option String → Bool
  | none => false
  | some s => !(s == "")

/-- JS a || fallback on an optional string. -/
def jsOrStr (a : Option String) (fallback : String) : String :=
  match a with
  | some s => if s == "" then fallback else s
  | none => fallback

/-- The early-exit test of the poll loop (create-invoice lines 102-113): a
nonempty response holding an entry of the requested method with a truthy
destination. -/
def pollMatch (requested : Option String) (pm : List PMEntry) : Bool :=
  !pm.isEmpty &&
    ((requested == some "lightning" &&
        pm.any (fun m => m.paymentMethod == "BTC-LightningNetwork" && truthyOpt m.destination)) ||
     (requested == some "onchain" &&
        pm.any (fun m => m.paymentMethod == "BTC-Onchain" && truthyOpt m.destination)))

/-- The retry budget (line 87): 5 attempts for onchain, otherwise 1. -/
def maxRetries (requested : Option String) : Nat :=
  if requested == some "onchain" then 5 else 1

/-- Observable state of the poll loop: the last successful response (the
paymentMethods variable), the number of fetches issued, and the list of
setTimeout delays (in ms) that were awaited. -/
structure PollState where
  pmFinal : Option (List PMEntry)
  fetches : Nat
  delaysMs : List Nat
deriving DecidableEq, Repr

/-- The while loop of lines 89-120: rem is the remaining budget, idx the
retries counter.  A 2000 ms delay precedes every attempt except the first;
an error leaves the paymentMethods variable unchanged and counts the attempt;
a matching response breaks out immediately. -/
def pollGo (requested : Option String) (responses : Nat → Except Unit (List PMEntry)) :
    Nat → Nat → PollState → PollState
  | 0, _, st => st
  | rem + 1, idx, st =>
    let ds := if 0 < idx then st.delaysMs ++ [2000] else st.delaysMs
    match responses idx with
    | .error _ => pollGo requested responses rem (idx + 1) ⟨st.pmFinal, st.fetches + 1, ds⟩
    | .ok pm =>
      if pollMatch requested pm then ⟨some pm, st.fetches + 1, ds⟩
      else pollGo requested responses rem (idx + 1) ⟨some pm, st.fetches + 1, ds⟩

/-- The whole poll loop, from retries = 0 and paymentMethods = null. -/
def pollLoop (requested : Option String) (responses : Nat → Except Unit (List PMEntry)) :
    PollState :=
  pollGo requested responses (maxRetries requested) 0 ⟨none, 0, []⟩

/-- The invoice record fields the handler reads from the create response. -/
structure InvoiceRec where
  id : String
  checkoutLink : String
  expirationTime : String
  status : String
deriving DecidableEq, Repr

/-- The normalized response shape (lines 122-162); optional fields are absent
unless assigned. -/
structure CreateResult where
  invoiceId : String
  checkoutURL : String
  expiresAt : String
  status : String
  lightningInvoice : Option String
  fallbackToLightning : Option Bool
  address : Option String
  btcAmount : Option String
  useCheckoutLink : Option Bool
  onchainNotAvailable : Option Bool
  message : Option String
deriving DecidableEq, Repr

/-- The on-chain-unavailable classification (lines 132-138), evaluated on a
nonempty final list: on-chain was requested, every entry is Lightning, and no
entry is BTC-Onchain. -/
def onchainNACond (requested : Option String) (pm : List PMEntry) : Bool :=
  requested == some "onchain" &&
    pm.all (fun m => m.paymentMethod == "BTC-LightningNetwork") &&
    !(pm.any (fun m => m.paymentMethod == "BTC-Onchain"))

/-- One iteration of the for loop over payment methods (lines 140-152). -/
def extractStep (requested : Option String) (na : Bool) (r : CreateResult) (m : PMEntry) :
    CreateResult :=
  if m.paymentMethod == "BTC-LightningNetwork" && truthyOpt m.destination then
    if requested == some "lightning" then
      { r with lightningInvoice := m.destination }
    else if requested == some "onchain" && na then
      { r with lightningInvoice := m.destination, fallbackToLightning := some true }
    else r
  else if m.paymentMethod == "BTC-Onchain" && truthyOpt m.destination then
    { r with address := m.destination,
             btcAmount := some (jsOrStr m.amount (jsOrStr m.cryptoAmount "0.00000000")) }
  else r

/-- Result shaping after the poll loop (lines 122-162). -/
def shapeResponse (requested : Option String) (invoice : InvoiceRec)
    (pmFinal : Option (List PMEntry)) : CreateResult :=
  let base : CreateResult :=
    ⟨invoice.id, invoice.checkoutLink, invoice.expirationTime, invoice.status,
     none, none, none, none, none, none, none⟩
  let hasPm : Bool := match pmFinal with | some pm => !pm.isEmpty | none => false
  let pm := pmFinal.getD []
  let na := hasPm && onchainNACond requested pm
  let r1 := if hasPm then pm.foldl (extractStep requested na) base else base
  if na then
    { r1 with useCheckoutLink := some true, onchainNotAvailable := some true,
              message :=
                some "On-chain payments not available. Use checkout page or try Lightning." }
  else if !truthyOpt r1.lightningInvoice && !truthyOpt r1.address then
    { r1 with useCheckoutLink := some true,
              message := some "Payment details not available. Use checkout page." }
  else r1

/-- Outcome of one createInvoice request: HTTP status, the JSON result on
success, and the sanitized description sent upstream as metadata. -/
structure CreateHandlerResult where
  status : Nat
  result : Option CreateResult
  sentDescription : String
deriving DecidableEq, Repr

/-- The api/create-invoice handler on a POST request: sanitize the metadata
description (description || Payment), issue the create call (an error is a
500 with detail), then poll and shape with a 200. -/
def createInvoiceHandler (requested description : Option String)
    (createResp : Except Unit InvoiceRec)
    (responses : Nat → Except Unit (List PMEntry)) : CreateHandlerResult :=
  let desc := sanitizeMetadata (jsOrStr description "Payment")
  match createResp with
  | .error _ => ⟨500, none, desc⟩
  | .ok invoice =>
    ⟨200, some (shapeResponse requested invoice (pollLoop requested responses).pmFinal), desc⟩

/-- Whether poll attempt j (0-based) would break the loop: a successful
response that satisfies the match test; an errored attempt never matches. -/
def attemptMatch (requested : Option String) (responses : Nat → Except Unit (List PMEntry))
    (j : Nat) : Bool :=
  match responses j with
  | .ok pm => pollMatch requested pm
  | .error _ => false

theorem pollGo_fetches_le (requested : Option String)
    (responses : Nat → Except Unit (List PMEntry)) :
    ∀ (rem idx : Nat) (st : PollState),
      (pollGo requested responses rem idx st).fetches ≤ st.fetches + rem := by
  intro rem
  induction rem with
  | zero => intro idx st; simp [pollGo]
  | succ rem ih =>
    intro idx st
    simp only [pollGo]
    cases hresp : responses idx with
    | error e =>
      refine le_trans (ih (idx + 1) _) ?_
      simp
      omega
    | ok pm =>
      by_cases hm : pollMatch requested pm
      · simp [hm]
      · simp only [hm, Bool.false_eq_true, if_false]
        refine le_trans (ih (idx + 1) _) ?_
        simp
        omega

theorem pollGo_fetches_ge (requested : Option String)
    (responses : Nat → Except Unit (List PMEntry)) :
    ∀ (rem idx : Nat) (st : PollState),
      st.fetches ≤ (pollGo requested responses rem idx st).fetches := by
  intro rem
  induction rem with
  | zero => intro idx st; simp [pollGo]
  | succ rem ih =>
    intro idx st
    simp only [pollGo]
    cases hresp : responses idx with
    | error e =>
      refine le_trans ?_ (ih (idx + 1) _)
      simp
    | ok pm =>
      by_cases hm : pollMatch requested pm
      · simp [hm]
      · simp only [hm, Bool.false_eq_true, if_false]
        refine le_trans ?_ (ih (idx + 1) _)
        simp

theorem pollGo_no_match (requested : Option String)
    (responses : Nat → Except Unit (List PMEntry)) :
    ∀ (rem idx : Nat) (st : PollState),
      (∀ j : Nat, idx ≤ j → j < idx + rem → attemptMatch requested responses j = false) →
      (pollGo requested responses rem idx st).fetches = st.fetches + rem := by
  intro rem
  induction rem with
  | zero => intro idx st _; simp [pollGo]
  | succ rem ih =>
    intro idx st h
    have hidx : attemptMatch requested responses idx = false := h idx (le_refl _) (by omega)
    simp only [pollGo]
    cases hresp : responses idx with
    | error e =>
      rw [ih (idx + 1) _ (fun j hj1 hj2 => h j (by omega) (by omega))]
      simp
      omega
    | ok pm =>
      have hpm : pollMatch requested pm = false := by
        unfold attemptMatch at hidx
        rw [hresp] at hidx
        exact hidx
      simp only [hpm, Bool.false_eq_true, if_false]
      rw [ih (idx + 1) _ (fun j hj1 hj2 => h j (by omega) (by omega))]
      simp
      omega

theorem pollGo_first_match (requested : Option String)
    (responses : Nat → Except Unit (List PMEntry)) :
    ∀ (k rem idx : Nat) (st : PollState), k < rem →
      (∀ j : Nat, idx ≤ j → j < idx + k → attemptMatch requested responses j = false) →
      attemptMatch requested responses (idx + k) = true →
      (pollGo requested responses rem idx st).fetches = st.fetches + k + 1 := by
  intro k
  induction k with
  | zero =>
    intro rem idx st hk h hm
    rw [Nat.add_zero] at hm
    cases rem with
    | zero => omega
    | succ rem =>
      simp only [pollGo]
      unfold attemptMatch at hm
      cases hresp : responses idx with
      | error e =>
        rw [hresp] at hm
        simp at hm
      | ok pm =>
        rw [hresp] at hm
        simp at hm
        simp [hm]
  | succ k ih =>
    intro rem idx st hk h hm
    cases rem with
    | zero => omega
    | succ rem =>
      have hidx : attemptMatch requested responses idx = false := h idx (le_refl _) (by omega)
      have hm2 : attemptMatch requested responses (idx + 1 + k) = true := by
        rw [show idx + 1 + k = idx + (k + 1) by omega]
        exact hm
      have hrest : ∀ j : Nat, idx + 1 ≤ j → j < idx + 1 + k →
          attemptMatch requested responses j = false :=
        fun j hj1 hj2 => h j (by omega) (by omega)
      simp only [pollGo]
      cases hresp : responses idx with
      | error e =>
        rw [ih rem (idx + 1) _ (by omega) hrest hm2]
        simp
        omega
      | ok pm =>
        have hpm : pollMatch requested pm = false := by
          unfold attemptMatch at hidx
          rw [hresp] at hidx
          exact hidx
        simp only [hpm, Bool.false_eq_true, if_false]
        rw [ih rem (idx + 1) _ (by omega) hrest hm2]
        simp
        omega

theorem pollGo_delays (requested : Option String)
    (responses : Nat → Except Unit (List PMEntry)) :
    ∀ (rem idx : Nat) (st : PollState), 1 ≤ idx →
      (pollGo requested responses rem idx st).delaysMs =
        st.delaysMs ++
          List.replicate ((pollGo requested responses rem idx st).fetches - st.fetches) 2000 := by
  intro rem
  induction rem with
  | zero => intro idx st _; simp [pollGo]
  | succ rem ih =>
    intro idx st h
    have hpos : 0 < idx := h
    simp only [pollGo, hpos, if_true]
    cases hresp : responses idx with
    | error e =>
      rw [ih (idx + 1) _ (by omega)]
      have hge := pollGo_fetches_ge requested responses rem (idx + 1)
        ⟨st.pmFinal, st.fetches + 1, st.delaysMs ++ [2000]⟩
      rw [List.append_assoc]
      congr 1
      have harith : (pollGo requested responses rem (idx + 1)
            ⟨st.pmFinal, st.fetches + 1, st.delaysMs ++ [2000]⟩).fetches - st.fetches =
          ((pollGo requested responses rem (idx + 1)
            ⟨st.pmFinal, st.fetches + 1, st.delaysMs ++ [2000]⟩).fetches -
              (st.fetches + 1)) + 1 := by
        simp at hge
        omega
      rw [harith, List.replicate_succ]
      rfl
    | ok pm =>
      by_cases hm : pollMatch requested pm
      · simp [hm]
      · simp only [hm, Bool.false_eq_true, if_false]
        rw [ih (idx + 1) _ (by omega)]
        have hge := pollGo_fetches_ge requested responses rem (idx + 1)
          ⟨some pm, st.fetches + 1, st.delaysMs ++ [2000]⟩
        rw [List.append_assoc]
        congr 1
        have harith : (pollGo requested responses rem (idx + 1)
              ⟨some pm, st.fetches + 1, st.delaysMs ++ [2000]⟩).fetches - st.fetches =
            ((pollGo requested responses rem (idx + 1)
              ⟨some pm, st.fetches + 1, st.delaysMs ++ [2000]⟩).fetches -
                (st.fetches + 1)) + 1 := by
          simp at hge
          omega
        rw [harith, List.replicate_succ]
        rfl

theorem pollGo_delays_from_start (requested : Option String)
    (responses : Nat → Except Unit (List PMEntry)) (rem : Nat) :
    (pollGo requested responses (rem + 1) 0 ⟨none, 0, []⟩).delaysMs =
      List.replicate ((pollGo requested responses (rem + 1) 0 ⟨none, 0, []⟩).fetches - 1)
        2000 := by
  simp only [pollGo]
  cases hresp : responses 0 with
  | error e =>
    rw [pollGo_delays requested responses rem 1 _ (le_refl 1)]
    simp
  | ok pm =>
    by_cases hm : pollMatch requested pm
    · simp [hm]
    · simp only [hm, Bool.false_eq_true, if_false]
      rw [pollGo_delays requested responses rem 1 _ (le_refl 1)]
      simp

theorem maxRetries_pos_form (requested : Option String) :
    maxRetries requested = (maxRetries requested - 1) + 1 := by
  unfold maxRetries
  split <;> rfl

theorem pollLoop_delays (requested : Option String)
    (responses : Nat → Except Unit (List PMEntry)) :
    (pollLoop requested responses).delaysMs =
      List.replicate ((pollLoop requested responses).fetches - 1) 2000 := by
  unfold pollLoop
  rw [maxRetries_pos_form requested]
  exact pollGo_delays_from_start requested responses (maxRetries requested - 1)

/-- C2: the poll loop issues at most 1 payment-methods fetch when lightning
was requested and at most 5 when onchain was; every pair of consecutive
fetches is separated by exactly one 2000 ms delay (the delay trace is one
entry shorter than the fetch count); when the first matching attempt is
attempt k+1 of the budget, the loop stops there with exactly k+1 fetches
issued; and when no attempt matches — errored attempts never match, they
merely consume budget — the loop still issues the full budget of fetches
rather than aborting. -/
theorem poll_loop_budget_and_early_stop (requested : Option String)
    (responses : Nat → Except Unit (List PMEntry)) :
    (requested = some "lightning" → (pollLoop requested responses).fetches ≤ 1) ∧
    (requested = some "onchain" → (pollLoop requested responses).fetches ≤ 5) ∧
    ((pollLoop requested responses).delaysMs =
      List.replicate ((pollLoop requested responses).fetches - 1) 2000) ∧
    (∀ k : Nat, k < maxRetries requested →
      (∀ j : Nat, j < k → attemptMatch requested responses j = false) →
      attemptMatch requested responses k = true →
      (pollLoop requested responses).fetches = k + 1) ∧
    ((∀ j : Nat, j < maxRetries requested → attemptMatch requested responses j = false) →
      (pollLoop requested responses).fetches = maxRetries requested) := by
  refine ⟨?_, ?_, pollLoop_delays _ _, ?_, ?_⟩
  · intro h
    subst h
    have hle := pollGo_fetches_le (some "lightning") responses
      (maxRetries (some "lightning")) 0 ⟨none, 0, []⟩
    unfold pollLoop
    simpa [maxRetries] using hle
  · intro h
    subst h
    have hle := pollGo_fetches_le (some "onchain") responses
      (maxRetries (some "onchain")) 0 ⟨none, 0, []⟩
    unfold pollLoop
    simpa [maxRetries] using hle
  · intro k hk h hm
    unfold pollLoop
    have hres := pollGo_first_match requested responses k (maxRetries requested) 0
      ⟨none, 0, []⟩ hk (fun j hj1 hj2 => h j (by omega)) (by simpa using hm)
    simpa using hres
  · intro h
    unfold pollLoop
    have hres := pollGo_no_match requested responses (maxRetries requested) 0
      ⟨none, 0, []⟩ (fun j hj1 hj2 => h j (by omega))
    simpa using hres

/-- The upstream of the spec example for the C2 witness: empty lists on
attempts 1 and 2, a populated on-chain entry from attempt 3 on. -/
def c2Responses : Nat → Except Unit (List PMEntry) :=
  fun j =>
    if j < 2 then .ok []
    else .ok [⟨"BTC-Onchain", some "bc1qexampleaddr", some "0.00012345", none⟩]

theorem poll_loop_budget_and_early_stop_witness :
    (pollLoop (some "onchain") c2Responses).fetches = 3 ∧
    (pollLoop (some "onchain") c2Responses).delaysMs = [2000, 2000] ∧
    (pollLoop (some "onchain") c2Responses).fetches ≤ 5 := by
  have h := poll_loop_budget_and_early_stop (some "onchain") c2Responses
  have hf : (pollLoop (some "onchain") c2Responses).fetches = 3 :=
    h.2.2.2.1 2 (by decide) (by decide) (by decide)
  refine ⟨hf, ?_, h.2.1 rfl⟩
  rw [h.2.2.1, hf]
  rfl

/-- The condition under which the for loop of lines 140-152 writes
lightningInvoice from an entry, given the NA flag. -/
def lnExtractCond (requested : Option String) (na : Bool) (m : PMEntry) : Bool :=
  m.paymentMethod == "BTC-LightningNetwork" && truthyOpt m.destination &&
    (requested == some "lightning" || (requested == some "onchain" && na))

theorem extractStep_address (requested : Option String) (na : Bool) (r : CreateResult)
    (m : PMEntry)
    (h : (m.paymentMethod == "BTC-Onchain" && truthyOpt m.destination) = false) :
    (extractStep requested na r m).address = r.address := by
  unfold extractStep
  split
  · split
    · rfl
    · split <;> rfl
  · split
    · rename_i hc
      rw [h] at hc
      simp at hc
    · rfl

theorem extractStep_lightning (requested : Option String) (na : Bool) (r : CreateResult)
    (m : PMEntry) (h : lnExtractCond requested na m = false) :
    (extractStep requested na r m).lightningInvoice = r.lightningInvoice := by
  unfold extractStep
  split
  · rename_i h1
    split
    · rename_i h2
      exfalso
      unfold lnExtractCond at h
      simp [h1, h2] at h
    · split
      · rename_i h3
        exfalso
        unfold lnExtractCond at h
        simp [h1, h3] at h
      · rfl
  · split <;> rfl

theorem foldl_extract_address (requested : Option String) (na : Bool) (l : List PMEntry) :
    ∀ r : CreateResult,
      (∀ m ∈ l, (m.paymentMethod == "BTC-Onchain" && truthyOpt m.destination) = false) →
      (l.foldl (extractStep requested na) r).address = r.address := by
  induction l with
  | nil => intro r _; rfl
  | cons m l ih =>
    intro r h
    simp only [List.foldl_cons]
    rw [ih _ (fun x hx => h x (by simp [hx]))]
    exact extractStep_address _ _ _ _ (h m (by simp))

theorem foldl_extract_lightning (requested : Option String) (na : Bool) (l : List PMEntry) :
    ∀ r : CreateResult,
      (∀ m ∈ l, lnExtractCond requested na m = false) →
      (l.foldl (extractStep requested na) r).lightningInvoice = r.lightningInvoice := by
  induction l with
  | nil => intro r _; rfl
  | cons m l ih =>
    intro r h
    simp only [List.foldl_cons]
    rw [ih _ (fun x hx => h x (by simp [hx]))]
    exact extractStep_lightning _ _ _ _ (h m (by simp))

/-- No payment detail is extractable from the final polled list: it is absent
or empty, or (not being the on-chain-unavailable case) it holds no entry the
for loop would copy into lightningInvoice or address. -/
def noExtractableDetails (requested : Option String) (pmFinal : Option (List PMEntry)) :
    Bool :=
  match pmFinal with
  | none => true
  | some l =>
    (l.isEmpty || !(onchainNACond requested l)) &&
    l.all (fun m => !(lnExtractCond requested false m)) &&
    l.all (fun m => !(m.paymentMethod == "BTC-Onchain" && truthyOpt m.destination))

theorem shapeResponse_fallback (requested : Option String) (invoice : InvoiceRec)
    (pmFinal : Option (List PMEntry))
    (h : noExtractableDetails requested pmFinal = true) :
    (shapeResponse requested invoice pmFinal).useCheckoutLink = some true ∧
    (shapeResponse requested invoice pmFinal).message =
      some "Payment details not available. Use checkout page." := by
  cases pmFinal with
  | none =>
    constructor <;> rfl
  | some l =>
    unfold noExtractableDetails at h
    simp only [Bool.and_eq_true, Bool.or_eq_true, List.all_eq_true, Bool.not_eq_true'] at h
    obtain ⟨⟨hor, hln⟩, haddr⟩ := h
    by_cases he : l.isEmpty
    · have hl : l = [] := List.isEmpty_iff.mp he
      subst hl
      constructor <;> rfl
    · have he2 : l.isEmpty = false := by
        cases hb : l.isEmpty
        · rfl
        · exact absurd hb he
      have hna : onchainNACond requested l = false := by
        rcases hor with h1 | h1
        · rw [he2] at h1
          cases h1
        · exact h1
      have hli : (l.foldl (extractStep requested false)
          ⟨invoice.id, invoice.checkoutLink, invoice.expirationTime, invoice.status,
           none, none, none, none, none, none, none⟩).lightningInvoice = none :=
        foldl_extract_lightning _ _ _ _ hln
      have had : (l.foldl (extractStep requested false)
          ⟨invoice.id, invoice.checkoutLink, invoice.expirationTime, invoice.status,
           none, none, none, none, none, none, none⟩).address = none :=
        foldl_extract_address _ _ _ _ haddr
      unfold shapeResponse
      simp only [he2, hna, Option.getD_some, Bool.not_false, Bool.and_false, Bool.true_and,
        Bool.and_true, if_true, if_false, Bool.false_eq_true]
      simp [hli, had, truthyOpt]

theorem shapeResponse_onchainNA (invoice : InvoiceRec) (l : List PMEntry)
    (hne : l.isEmpty = false)
    (hall : l.all (fun m => m.paymentMethod == "BTC-LightningNetwork") = true) :
    (shapeResponse (some "onchain") invoice (some l)).onchainNotAvailable = some true ∧
    (shapeResponse (some "onchain") invoice (some l)).address = none := by
  have hall2 : ∀ m ∈ l, m.paymentMethod = "BTC-LightningNetwork" := by
    intro m hm
    have hb := (List.all_eq_true.mp hall) m hm
    simpa using hb
  have hno : l.any (fun m => m.paymentMethod == "BTC-Onchain") = false := by
    simp only [List.any_eq_false]
    intro m hm
    rw [hall2 m hm]
    decide
  have hNA : onchainNACond (some "onchain") l = true := by
    unfold onchainNACond
    simp [hall, hno]
  have haddrcond : ∀ m ∈ l,
      (m.paymentMethod == "BTC-Onchain" && truthyOpt m.destination) = false := by
    intro m hm
    rw [hall2 m hm]
    simp
  unfold shapeResponse
  simp only [Option.getD_some, hne, Bool.not_false, hNA, Bool.and_true, Bool.true_and,
    Bool.and_self, if_true]
  refine ⟨by trivial, ?_⟩
  exact foldl_extract_address _ _ _ _ haddrcond

/-- C5: for an on-chain request whose final polled payment-methods list is
nonempty and contains only BTC-LightningNetwork entries (hence no BTC-Onchain
entry), the handler answers 200 with onchainNotAvailable set to true and no
address field — no on-chain address is fabricated. -/
theorem onchain_request_only_lightning_flagged (description : Option String)
    (invoice : InvoiceRec) (responses : Nat → Except Unit (List PMEntry)) (l : List PMEntry)
    (hfin : (pollLoop (some "onchain") responses).pmFinal = some l)
    (hne : l.isEmpty = false)
    (hall : l.all (fun m => m.paymentMethod == "BTC-LightningNetwork") = true) :
    (createInvoiceHandler (some "onchain") description (.ok invoice) responses).status =
      200 ∧
    (createInvoiceHandler (some "onchain") description (.ok invoice) responses).result =
      some (shapeResponse (some "onchain") invoice (some l)) ∧
    (shapeResponse (some "onchain") invoice (some l)).onchainNotAvailable = some true ∧
    (shapeResponse (some "onchain") invoice (some l)).address = none := by
  have hsh := shapeResponse_onchainNA invoice l hne hall
  refine ⟨rfl, ?_, hsh.1, hsh.2⟩
  simp only [createInvoiceHandler]
  rw [hfin]

/-- A run for the C5 witness: the upstream only ever offers Lightning. -/
def c5Responses : Nat → Except Unit (List PMEntry) :=
  fun _ => .ok [⟨"BTC-LightningNetwork", some "lnbc1example", none, none⟩]

theorem onchain_request_only_lightning_flagged_witness :
    (createInvoiceHandler (some "onchain") none (.ok ⟨"inv1", "http-u", "exp", "New"⟩)
      c5Responses).status = 200 ∧
    (shapeResponse (some "onchain") ⟨"inv1", "http-u", "exp", "New"⟩
      (some [⟨"BTC-LightningNetwork", some "lnbc1example", none, none⟩])).onchainNotAvailable =
      some true ∧
    (shapeResponse (some "onchain") ⟨"inv1", "http-u", "exp", "New"⟩
      (some [⟨"BTC-LightningNetwork", some "lnbc1example", none, none⟩])).address = none := by
  have h := onchain_request_only_lightning_flagged none ⟨"inv1", "http-u", "exp", "New"⟩
    c5Responses [⟨"BTC-LightningNetwork", some "lnbc1example", none, none⟩]
    (by decide) (by decide) (by decide)
  exact ⟨h.1, h.2.2.1, h.2.2.2⟩

/-- C4 (amended): when the create call succeeded but nothing extractable came
back within the retry budget — the final polled list is absent, empty, or
(outside the on-chain-unavailable case) holds no entry the extraction loop
copies — the handler still answers 200, with useCheckoutLink true and the
human-readable fallback message.  The amendment narrows the original claim:
the guard is that no detail of any kind was extracted, not merely none of the
requested method, because a BTC-Onchain destination is copied into address
even when lightning was requested (see the counterexample). -/
theorem fallback_checkout_on_no_details (requested description : Option String)
    (invoice : InvoiceRec) (responses : Nat → Except Unit (List PMEntry))
    (h : noExtractableDetails requested (pollLoop requested responses).pmFinal = true) :
    (createInvoiceHandler requested description (.ok invoice) responses).status = 200 ∧
    (createInvoiceHandler requested description (.ok invoice) responses).result =
      some (shapeResponse requested invoice (pollLoop requested responses).pmFinal) ∧
    (shapeResponse requested invoice
      (pollLoop requested responses).pmFinal).useCheckoutLink = some true ∧
    (shapeResponse requested invoice (pollLoop requested responses).pmFinal).message =
      some "Payment details not available. Use checkout page." := by
  have hsh := shapeResponse_fallback requested invoice _ h
  exact ⟨rfl, rfl, hsh.1, hsh.2⟩

/-- An upstream that only ever returns a populated on-chain entry. -/
def c4Responses : Nat → Except Unit (List PMEntry) :=
  fun _ => .ok [⟨"BTC-Onchain", some "bc1qaddr", none, none⟩]

theorem fallback_checkout_on_no_details_cex :
    (pollLoop (some "lightning") c4Responses).fetches = maxRetries (some "lightning") ∧
    ((createInvoiceHandler (some "lightning") none (.ok ⟨"inv1", "u", "e", "New"⟩)
        c4Responses).result.map
      (fun r => (r.useCheckoutLink, r.onchainNotAvailable, r.lightningInvoice, r.address))) =
      some (none, none, none, some "bc1qaddr") := by decide

/-- An upstream whose payment-methods endpoint always errors, for the C4
witness. -/
def c4wResponses : Nat → Except Unit (List PMEntry) := fun _ => .error ()

theorem fallback_checkout_on_no_details_witness :
    (createInvoiceHandler (some "onchain") none (.ok ⟨"inv1", "u", "e", "New"⟩)
      c4wResponses).status = 200 ∧
    (shapeResponse (some "onchain") ⟨"inv1", "u", "e", "New"⟩
      (pollLoop (some "onchain") c4wResponses).pmFinal).useCheckoutLink = some true ∧
    (shapeResponse (some "onchain") ⟨"inv1", "u", "e", "New"⟩
      (pollLoop (some "onchain") c4wResponses).pmFinal).message =
      some "Payment details not available. Use checkout page." := by
  have h := fallback_checkout_on_no_details (some "onchain") none ⟨"inv1", "u", "e", "New"⟩
    c4wResponses (by decide)
  exact ⟨h.1, h.2.2.1, h.2.2.2⟩
